import Mathlib

/-!
Shallow embedding of the economic-calendar subsystem of JournalX_Backend
(src/app/services/economic_calendar_service.py, src/app/crud/calendar_crud.py,
src/app/routes/calendar.py) and proofs about it.

Modelling conventions:
* MongoDB documents of the `economic_events` collection are modelled by the
  structure `StoredEvent`; the collection itself is a `List StoredEvent` in
  natural (insertion) order.  `find_one` without a sort returns the first
  matching document, `insert_one` appends, `update_one` rewrites the first
  matching document, `update_many` rewrites every matching document.
* Python `datetime` values are modelled as rational numbers of hours since an
  epoch; `timedelta(hours := h)` is `+ h` and `timedelta(minutes := m)` is
  `+ m / 60`.
* Dictionary fields that may be absent or null (`event.get(k)`) are modelled
  as `Option` values; `none` stands for both a missing key and `None`.
* MongoDB `_id` values are BSON-typed: an ObjectId (assigned by `insert_one`)
  and a string are never equal, which the type `DocId` records.
* MongoDB comparison query operators (`$lt`, `$gte`, ...) are type-bracketed:
  a comparison between values of different BSON types (for example a Date
  field against a string operand) matches no document.  `BVal` and
  `bvalQueryLt` record exactly this.
-/

/-- BSON `_id` values: ObjectIds (modelled by a natural number) are a
different BSON type from strings and never compare equal to them. -/
inductive DocId where
  | oid (n : Nat)
  | sid (s : String)
deriving DecidableEq, Repr

/-- Python `str(_id)`: the textual rendering of an `_id`, which is what the
HTTP layer hands back to clients (`event["_id"] = str(event["_id"])`). -/
def DocId.pyStr : DocId → String
  | .oid n => toString n
  | .sid s => s

/-- BSON values, as far as the queries of this subsystem need them. -/
inductive BVal where
  | null
  | bstr (s : String)
  | bdate (t : ℚ)
deriving DecidableEq, Repr

/-- MongoDB `$lt` on query operands: comparisons are type-bracketed, so a
value of one BSON type is never `$lt` a value of another type. -/
def bvalQueryLt : BVal → BVal → Bool
  | .bstr a, .bstr b => a < b
  | .bdate a, .bdate b => a < b
  | _, _ => false

/-- A fetched (normalized) event as produced by the source adapters
(`fetch_finnhub_events`, `fetch_fair_economy_events`): the dictionary handed
to `sync_events_to_db`. -/
structure FetchedEvent where
  unique_id : String
  event_date : ℚ
  event_time_utc : ℚ
  country : String
  currency : String
  impact_level : String
  event_name : String
  actual : Option String
  forecast : Option String
  previous : Option String
  status : Option String
  fetched_at : Option ℚ
deriving DecidableEq, Repr

/-- A document of the `economic_events` collection: the fetched fields plus
the `_id` assigned by `insert_one` and the bookkeeping timestamps added by
the sync engine. -/
structure StoredEvent where
  _id : DocId
  unique_id : String
  event_date : ℚ
  event_time_utc : ℚ
  country : String
  currency : String
  impact_level : String
  event_name : String
  actual : Option String
  forecast : Option String
  previous : Option String
  status : Option String
  fetched_at : Option ℚ
  created_at : ℚ
  updated_at : ℚ
deriving DecidableEq, Repr

/-- `db.economic_events.find_one({"unique_id": uid})`: first document in
natural order whose `unique_id` matches. -/
def findByUid (store : List StoredEvent) (uid : String) : Option StoredEvent :=
  store.find? (fun d => d.unique_id == uid)

/-- The `update_fields` dictionary built by `sync_events_to_db` for an
existing document: `some v` means the key is present with value `v`. -/
structure UpdateFields where
  actual : Option (Option String)
  forecast : Option (Option String)
  previous : Option (Option String)
  status : Option (Option String)
deriving DecidableEq, Repr

/-- Lines 57-69 of economic_calendar_service.py: a diff field enters
`update_fields` exactly when the fetched value differs from the stored one. -/
def mkUpdateFields (ev : FetchedEvent) (ex : StoredEvent) : UpdateFields where
  actual := if ev.actual ≠ ex.actual then some ev.actual else none
  forecast := if ev.forecast ≠ ex.forecast then some ev.forecast else none
  previous := if ev.previous ≠ ex.previous then some ev.previous else none
  status := if ev.status ≠ ex.status then some ev.status else none

/-- Python `if update_fields:` — the dictionary is falsy iff no key was
added. -/
def UpdateFields.isEmpty (u : UpdateFields) : Bool :=
  u.actual == none && u.forecast == none && u.previous == none && u.status == none

/-- The `$set` write of lines 71-78: apply the diff fields, plus
`updated_at = now` and `fetched_at = event.get("fetched_at")`.  Only used
when `update_fields` is non-empty. -/
def applySet (u : UpdateFields) (now : ℚ) (fat : Option ℚ) (d : StoredEvent) : StoredEvent :=
  { d with
    actual := u.actual.getD d.actual
    forecast := u.forecast.getD d.forecast
    previous := u.previous.getD d.previous
    status := u.status.getD d.status
    updated_at := now
    fetched_at := fat }

/-- `update_one`: rewrite the first document satisfying `p` with `f`. -/
def updateFirst (p : StoredEvent → Bool) (f : StoredEvent → StoredEvent) :
    List StoredEvent → List StoredEvent
  | [] => []
  | d :: ds => if p d then f d :: ds else d :: updateFirst p f ds

/-- Lines 83-87: the document inserted for a previously unseen event — the
fetched fields with `created_at = updated_at = now`, `_id` assigned by
MongoDB. -/
def insertDoc (oid : Nat) (now : ℚ) (ev : FetchedEvent) : StoredEvent where
  _id := .oid oid
  unique_id := ev.unique_id
  event_date := ev.event_date
  event_time_utc := ev.event_time_utc
  country := ev.country
  currency := ev.currency
  impact_level := ev.impact_level
  event_name := ev.event_name
  actual := ev.actual
  forecast := ev.forecast
  previous := ev.previous
  status := ev.status
  fetched_at := ev.fetched_at
  created_at := now
  updated_at := now

/-- The collection plus MongoDB's ObjectId supply. -/
structure SyncState where
  store : List StoredEvent
  nextId : Nat
deriving DecidableEq, Repr

/-- Accumulator of the per-event loop of `sync_events_to_db`. -/
structure SyncAcc where
  st : SyncState
  created : Nat
  updated : Nat
  skipped : Nat
deriving DecidableEq, Repr

/-- The loop of lines 48-92 of economic_calendar_service.py.  `fail i = true`
models the `except` branch firing on the i-th record (any per-record
exception is logged and the loop continues with no write and no count). -/
def syncLoop (fail : Nat → Bool) (now : ℚ) :
    List FetchedEvent → Nat → SyncAcc → SyncAcc
  | [], _, acc => acc
  | ev :: rest, i, acc =>
    if fail i then
      syncLoop fail now rest (i + 1) acc
    else
      match findByUid acc.st.store ev.unique_id with
      | some ex =>
        let u := mkUpdateFields ev ex
        if u.isEmpty then
          syncLoop fail now rest (i + 1) { acc with skipped := acc.skipped + 1 }
        else
          syncLoop fail now rest (i + 1)
            { acc with
              st := { acc.st with
                store := updateFirst (fun d => d.unique_id == ev.unique_id)
                  (applySet u now ev.fetched_at) acc.st.store }
              updated := acc.updated + 1 }
      | none =>
        syncLoop fail now rest (i + 1)
          { acc with
            st := { store := acc.st.store ++ [insertDoc acc.st.nextId now ev]
                    nextId := acc.st.nextId + 1 }
            created := acc.created + 1 }

/-- The counts dictionary returned by `sync_events_to_db`. -/
structure SyncCounts where
  created : Nat
  updated : Nat
  skipped : Nat
  total : Nat
deriving DecidableEq, Repr

/-- `EconomicCalendarService.sync_events_to_db` (lines 27-101).  The early
return on an empty list coincides with the loop on `[]`, so no special case
is needed. -/
def sync_events_to_db (fail : Nat → Bool) (now : ℚ) (st : SyncState)
    (events : List FetchedEvent) : SyncState × SyncCounts :=
  let r := syncLoop fail now events 0 ⟨st, 0, 0, 0⟩
  (r.st, ⟨r.created, r.updated, r.skipped, events.length⟩)

/-- The no-exception oracle: every record processes normally. -/
def noFail : Nat → Bool := fun _ => false

/-- Per-document effect of `EconomicCalendarService.update_event_status`
(lines 232-253).  The Python filter literal `{"$ne": None, "$ne": ""}` is a
dictionary with a duplicated key, so the second entry overwrites the first
and the filter that reaches MongoDB is `{"actual": {"$ne": ""}}`; `$ne`
matches documents whose `actual` is null or missing as well.  `update_many`
applies the `$set` to every matching document. -/
def update_event_status_doc (now : ℚ) (d : StoredEvent) : StoredEvent :=
  if d.status == some "upcoming" && !(d.actual == some "") then
    { d with status := some "released", updated_at := now }
  else d

/-- `EconomicCalendarService.update_event_status`: `update_many` over the
collection. -/
def update_event_status (now : ℚ) (store : List StoredEvent) : List StoredEvent :=
  store.map (update_event_status_doc now)

/-- Per-document effect of
`EconomicCalendarService.update_event_status_by_time` (lines 294-313).  The
filter compares the `event_time_utc` field against `now.isoformat()` — a
string — with `$lt`; the comparison is carried out at BSON type level by
`bvalQueryLt`, and the stored field is a BSON Date (both source adapters
store a `datetime`).  `nowIso` is the serialized current time. -/
def update_event_status_by_time_doc (now : ℚ) (nowIso : String) (d : StoredEvent) :
    StoredEvent :=
  if d.status == some "upcoming" &&
      bvalQueryLt (.bdate d.event_time_utc) (.bstr nowIso) &&
      (d.actual == none || d.actual == some "") then
    { d with status := some "released", updated_at := now }
  else d

/-- `EconomicCalendarService.update_event_status_by_time`: `update_many`
over the collection. -/
def update_event_status_by_time (now : ℚ) (nowIso : String)
    (store : List StoredEvent) : List StoredEvent :=
  store.map (update_event_status_by_time_doc now nowIso)

/-- Observable outcome of one `auto_update_calendar` cycle: the resulting
state, whether the fallback adapter was invoked, the event list that was
synced, and the counts (none when the cycle returned before syncing). -/
structure AutoUpdateOut where
  st : SyncState
  secondInvoked : Bool
  eventsUsed : List FetchedEvent
  counts : Option SyncCounts
deriving DecidableEq, Repr

/-- `EconomicCalendarService.auto_update_calendar` (lines 255-292): try
Finnhub first; fall back to FairEconomy only when Finnhub returned no
events; if both are empty, return without touching the store; otherwise
sync the fetched list and then run `update_event_status_by_time`.  The two
adapter results are passed in as the lists they returned (each adapter
catches its own failures and returns an empty list). -/
def auto_update_calendar (fetch1 fetch2 : List FetchedEvent) (now : ℚ)
    (nowIso : String) (st : SyncState) : AutoUpdateOut :=
  let events := if fetch1.isEmpty then fetch2 else fetch1
  let second := fetch1.isEmpty
  if events.isEmpty then
    ⟨st, second, events, none⟩
  else
    let r := sync_events_to_db noFail now st events
    ⟨⟨update_event_status_by_time now nowIso r.1.store, r.1.nextId⟩, second, events, some r.2⟩

/-- Tokens of the PCRE fragment this development models: literal characters
and the any-character metacharacter.  Search strings used by the query
service reach MongoDB as `{"$regex": search, "$options": "i"}`; within
patterns built only from literals and dots this matcher agrees with PCRE
unanchored case-insensitive search. -/
inductive RTok where
  | lit (c : Char)
  | dot
deriving DecidableEq, Repr

/-- Read a pattern string as regex tokens: `.` is the metacharacter, every
other character a literal. -/
def parseRegex (s : String) : List RTok :=
  s.data.map (fun c => if c = '.' then .dot else .lit c)

/-- Case-insensitive token match (the `i` option). -/
def rtokMatches : RTok → Char → Bool
  | .dot, _ => true
  | .lit a, c => a.toLower == c.toLower

/-- Match the whole token list against a prefix of the text. -/
def rMatchHere : List RTok → List Char → Bool
  | [], _ => true
  | _ :: _, [] => false
  | t :: ts, c :: cs => rtokMatches t c && rMatchHere ts cs

/-- Unanchored search: try the match at every suffix of the text. -/
def rSearch (p : List RTok) : List Char → Bool
  | [] => rMatchHere p []
  | c :: cs => rMatchHere p (c :: cs) || rSearch p cs

/-- MongoDB `{"event_name": {"$regex": pat, "$options": "i"}}` on a string
field. -/
def regexSearchI (pat text : String) : Bool :=
  rSearch (parseRegex pat) text.data

/-- Python truthiness of an optional list argument (`if currencies:`):
`None` and `[]` are falsy. -/
def truthyList (o : Option (List String)) : Bool :=
  match o with
  | some (_ :: _) => true
  | _ => false

/-- Python truthiness of an optional string argument (`if search_query:`):
`None` and `""` are falsy. -/
def truthyStr (o : Option String) : Bool :=
  match o with
  | some s => !(s == "")
  | none => false

/-- The optional arguments of
`EconomicCalendarService.get_events_with_filters` (lines 103-113). -/
structure FilterParams where
  start_date : Option ℚ
  end_date : Option ℚ
  currencies : Option (List String)
  impacts : Option (List String)
  high_impact_only : Bool
  search_query : Option String
  status : Option String
deriving Repr

/-- The conjunction of query clauses built in lines 132-159: a document
matches the assembled MongoDB query iff it passes every clause that was
added. -/
def matchEvent (p : FilterParams) (d : StoredEvent) : Bool :=
  (p.start_date.all (fun t => decide (t ≤ d.event_date))) &&
  (p.end_date.all (fun t => decide (d.event_date ≤ t))) &&
  (if truthyList p.currencies then (p.currencies.getD []).contains d.currency else true) &&
  (if p.high_impact_only then d.impact_level == "high"
   else if truthyList p.impacts then (p.impacts.getD []).contains d.impact_level
   else true) &&
  (if truthyStr p.search_query then regexSearchI (p.search_query.getD "") d.event_name
   else true) &&
  (if truthyStr p.status then d.status == some (p.status.getD "") else true)

/-- `.sort("event_time_utc", 1)`: ascending stable sort on the UTC
timestamp. -/
def sortByTime (l : List StoredEvent) : List StoredEvent :=
  l.insertionSort (fun a b => a.event_time_utc ≤ b.event_time_utc)

/-- `EconomicCalendarService.get_events_with_filters` (lines 103-189): the
documents matching the assembled query, sorted by `event_time_utc`.  The
per-user enrichment of lines 164-187 adds annotation counters
(`is_marked`, `notes_count`, `linked_trades_count`) to each returned
document without changing which documents are returned; it reads only the
annotation collections and is not modelled here. -/
def get_events_with_filters (p : FilterParams) (store : List StoredEvent) :
    List StoredEvent :=
  sortByTime (store.filter (matchEvent p))

/-- `EconomicCalendarService.calculate_next_high_impact` (lines 209-230):
`find_one` with an ascending sort on `event_time_utc` returns the first
document of the sorted matching set — the first-encountered document of
minimal timestamp. -/
def calculate_next_high_impact (now : ℚ) (store : List StoredEvent) :
    Option StoredEvent :=
  (store.filter (fun d =>
      d.impact_level == "high" && decide (now ≤ d.event_time_utc) &&
      d.status == some "upcoming")).foldl
    (fun acc d =>
      match acc with
      | none => some d
      | some m => if d.event_time_utc < m.event_time_utc then some d else some m)
    none

/-- An event as returned by the `/events` route: the stored document, plus
the `event_time_local` key when the route added it. -/
structure ApiEvent where
  ev : StoredEvent
  event_time_local : Option ℚ
deriving DecidableEq, Repr

/-- `EconomicCalendarService.convert_to_user_timezone` (lines 191-207):
`event_time_local = event_time_utc + timedelta(hours = offset)`.  Stored
events always carry `event_time_utc`, so the `if "event_time_utc" in event`
guard always holds here. -/
def convert_to_user_timezone (offset : ℚ) (e : StoredEvent) : ApiEvent :=
  ⟨e, some (e.event_time_utc + offset)⟩

/-- Lines 90-95 of routes/calendar.py: the conversion is applied to every
returned event only when `timezone_offset != 0`; otherwise the documents are
returned as fetched, without an `event_time_local` key. -/
def localize_calendar_events (offset : ℚ) (events : List StoredEvent) :
    List ApiEvent :=
  if offset == 0 then events.map (fun e => ⟨e, none⟩)
  else events.map (convert_to_user_timezone offset)

/-- The `/events` route `get_calendar_events` restricted to its query and
timezone steps: filter the store, then localize. -/
def get_calendar_events (p : FilterParams) (offset : ℚ)
    (store : List StoredEvent) : List ApiEvent :=
  localize_calendar_events offset (get_events_with_filters p store)

/-- A document of the `event_reminders` collection as built by
`calendar_crud.create_reminder` (lines 232-240). -/
structure Reminder where
  user_id : String
  event_id : String
  event_time : ℚ
  minutes_before : Int
  reminder_time : ℚ
  is_sent : Bool
  created_at : ℚ
deriving DecidableEq, Repr

/-- `calendar_crud.create_reminder` (lines 209-249): look the event up with
`find_one({"_id": event_id})` where `event_id` is the caller-supplied
string; raise `ValueError("Event not found")` when nothing matches;
otherwise insert and return the reminder with
`reminder_time = event_time_utc - timedelta(minutes = minutes_before)` and
`is_sent = False`. -/
def create_reminder (now : ℚ) (store : List StoredEvent) (user_id event_id : String)
    (minutes_before : Int) : Except String Reminder :=
  match store.find? (fun d => d._id == DocId.sid event_id) with
  | none => .error "Event not found"
  | some event =>
    .ok { user_id := user_id
          event_id := event_id
          event_time := event.event_time_utc
          minutes_before := minutes_before
          reminder_time := event.event_time_utc - (minutes_before : ℚ) / 60
          is_sent := false
          created_at := now }

/-- Case-insensitive prefix test on character lists. -/
def isPrefixCI : List Char → List Char → Bool
  | [], _ => true
  | _ :: _, [] => false
  | a :: as, b :: bs => (a.toLower == b.toLower) && isPrefixCI as bs

/-- Case-insensitive contiguous-substring occurrence on character lists:
the needle matches at some suffix start. -/
def containsCIAux (p : List Char) : List Char → Bool
  | [] => isPrefixCI p []
  | c :: cs => isPrefixCI p (c :: cs) || containsCIAux p cs

/-- Specification-side search predicate, written from the claim's words for
comparison with the code's `regexSearchI`: the search string occurs in the
event name as a case-insensitive contiguous substring. -/
def containsCI (needle hay : String) : Bool :=
  containsCIAux needle.data hay.data

/-- The PCRE metacharacters.  A pattern free of all of them denotes a plain
literal string to the regex engine. -/
def pcreMetaChars : List Char :=
  ['.', '*', '+', '?', '[', ']', '(', ')', '^', '$', '|', '\\', '\x7b', '\x7d']

/-- A search string with no regex metacharacter. -/
def metaFree (s : String) : Bool :=
  s.data.all (fun c => !(pcreMetaChars.contains c))

/-- Specification-side filter predicate, written from the claim's words for
comparison with the code's `matchEvent`: the conjunction of the optional
filters, with free-text search read as case-insensitive substring
containment. -/
def spec_filter_matches (p : FilterParams) (d : StoredEvent) : Bool :=
  (p.start_date.all (fun t => decide (t ≤ d.event_date))) &&
  (p.end_date.all (fun t => decide (d.event_date ≤ t))) &&
  (if truthyList p.currencies then (p.currencies.getD []).contains d.currency else true) &&
  (if p.high_impact_only then d.impact_level == "high"
   else if truthyList p.impacts then (p.impacts.getD []).contains d.impact_level
   else true) &&
  (if truthyStr p.search_query then containsCI (p.search_query.getD "") d.event_name
   else true) &&
  (if truthyStr p.status then d.status == some (p.status.getD "") else true)

/-- A released stored event, as the pipeline leaves it after a release: the
XML adapter's shape with `actual` still empty. -/
def releasedCpiDoc : StoredEvent :=
  { _id := .oid 0, unique_id := "u1", event_date := 0, event_time_utc := 10,
    country := "US", currency := "USD", impact_level := "high",
    event_name := "CPI (MoM)", actual := some "", forecast := some "0.3%",
    previous := some "0.2%", status := some "released", fetched_at := some 1,
    created_at := 0, updated_at := 0 }

/-- A fetched record for the same logical event whose computed status is
still `upcoming` (the XML adapter emits `upcoming` whenever
`event_time > now`), identical to the stored document in every diff field
except `status`. -/
def upcomingCpiFetch : FetchedEvent :=
  { unique_id := "u1", event_date := 0, event_time_utc := 10, country := "US",
    currency := "USD", impact_level := "high", event_name := "CPI (MoM)",
    actual := some "", forecast := some "0.3%", previous := some "0.2%",
    status := some "upcoming", fetched_at := some 2 }

/-- Two fetched records sharing one `unique_id` but carrying different
`actual` values. -/
def dupFetchA : FetchedEvent := { upcomingCpiFetch with actual := some "a" }

/-- Second record of the duplicated pair. -/
def dupFetchB : FetchedEvent := { upcomingCpiFetch with actual := some "b" }

/-- An upcoming stored event whose `actual` is null and whose release time
lies in the future. -/
def upcomingNullActualDoc : StoredEvent :=
  { releasedCpiDoc with status := some "upcoming", actual := none }

/-- An upcoming stored event whose release time has passed while `actual`
is still the empty string. -/
def upcomingPastEmptyDoc : StoredEvent :=
  { releasedCpiDoc with
    status := some "upcoming"
    actual := some ""
    event_time_utc := 1 }

/-- A stored event named `AB`, upcoming. -/
def eventAB : StoredEvent :=
  { releasedCpiDoc with event_name := "AB", status := some "upcoming" }

/-- Filter parameters whose only active filter is the search string `.`. -/
def dotSearchParams : FilterParams :=
  { start_date := none, end_date := none, currencies := none, impacts := none,
    high_impact_only := false, search_query := some ".", status := none }

/-- A high-impact upcoming event whose time already passed (T1). -/
def pastHighDoc : StoredEvent :=
  { releasedCpiDoc with
    status := some "upcoming"
    event_time_utc := 5
    unique_id := "p" }

/-- A high-impact upcoming event in the future (T2). -/
def futureHighDoc : StoredEvent :=
  { releasedCpiDoc with
    status := some "upcoming"
    event_time_utc := 15
    unique_id := "f" }

/-- A stored event created by the sync pipeline: its `_id` is the ObjectId 7,
so the id string served to API clients is `"7"`. -/
def oidStoredEvent : StoredEvent :=
  { releasedCpiDoc with
    _id := .oid 7
    unique_id := "u9"
    event_time_utc := 100
    status := some "upcoming" }

/-- C1 counterexample: syncing a fetched record that carries status
`upcoming` against an existing stored event whose status is `released`
(same `unique_id`, every other diff field identical) rewrites the stored
status to `upcoming` — `sync_events_to_db` copies the fetched status
whenever it differs, so the claimed monotonicity fails. -/
theorem c1_sync_reverts_released_counterexample :
    releasedCpiDoc.status = some "released" ∧
    upcomingCpiFetch.status = some "upcoming" ∧
    releasedCpiDoc.unique_id = upcomingCpiFetch.unique_id ∧
    (sync_events_to_db noFail 3 ⟨[releasedCpiDoc], 1⟩ [upcomingCpiFetch]).1.store.map
        (fun d => d.status) = [some "upcoming"] := by
  refine ⟨rfl, rfl, rfl, ?_⟩
  rfl

/-- C2 counterexample: with a fetched list containing two records that share
one `unique_id` but carry different `actual` values, the second pass over
the identical list performs two updates, not zero — each pass flips the
stored `actual` back and forth, so sync is not idempotent on arbitrary
lists. -/
theorem c2_duplicate_uid_counterexample :
    dupFetchA.unique_id = dupFetchB.unique_id ∧
    dupFetchA.actual ≠ dupFetchB.actual ∧
    (sync_events_to_db noFail 0
        (sync_events_to_db noFail 0 ⟨[], 0⟩ [dupFetchA, dupFetchB]).1
        [dupFetchA, dupFetchB]).2.updated = 2 := by
  refine ⟨rfl, by decide, ?_⟩
  rfl

/-- C3: the status updater does not implement the claimed rules.
`update_event_status` releases an upcoming event whose `actual` is null and
whose time is in the future (the Python filter `{"$ne": None, "$ne": ""}`
is a dictionary with a duplicated key, collapsing to `actual != ""`, which
matches null), although neither claimed rule applies; and
`update_event_status_by_time` — the only updater run after a sync pass —
leaves an upcoming event with empty `actual` and a past release time
untouched for every serialized `now`, because it compares the BSON Date
field against an ISO string and the type-bracketed comparison matches
nothing, although claimed rule (2) applies. -/
theorem c3_status_updater_bug :
    (upcomingNullActualDoc.status = some "upcoming" ∧
      upcomingNullActualDoc.actual = none ∧
      (5 : ℚ) < upcomingNullActualDoc.event_time_utc ∧
      (update_event_status 5 [upcomingNullActualDoc]).map (fun d => d.status) =
        [some "released"]) ∧
    (upcomingPastEmptyDoc.status = some "upcoming" ∧
      upcomingPastEmptyDoc.actual = some "" ∧
      upcomingPastEmptyDoc.event_time_utc < (5 : ℚ) ∧
      ∀ nowIso : String,
        (update_event_status_by_time 5 nowIso [upcomingPastEmptyDoc]).map
          (fun d => d.status) = [some "upcoming"]) := by
  refine ⟨⟨rfl, rfl, by norm_num [upcomingNullActualDoc, releasedCpiDoc], rfl⟩,
         ⟨rfl, rfl, by norm_num [upcomingPastEmptyDoc, releasedCpiDoc], fun _ => rfl⟩⟩

/-- C6 counterexample: with the search string `.` the query returns the
event named `AB`, although `.` does not occur in `AB` as a case-insensitive
substring — the search reaches MongoDB as a regular expression, not a
substring test. -/
theorem c6_regex_dot_counterexample :
    get_events_with_filters dotSearchParams [eventAB] = [eventAB] ∧
    containsCI "." "AB" = false := by
  exact ⟨by decide, by decide⟩

/-- C7 counterexample: with two stored high-impact upcoming events at times
T1 = 5 < T2 = 15 and the current time 10, the lookup returns the T2 event,
not the T1 event — the query additionally requires
`event_time_utc >= now`. -/
theorem c7_past_t1_counterexample :
    pastHighDoc.event_time_utc < futureHighDoc.event_time_utc ∧
    pastHighDoc.impact_level = "high" ∧ pastHighDoc.status = some "upcoming" ∧
    futureHighDoc.impact_level = "high" ∧ futureHighDoc.status = some "upcoming" ∧
    calculate_next_high_impact 10 [pastHighDoc, futureHighDoc] = some futureHighDoc ∧
    calculate_next_high_impact 10 [pastHighDoc, futureHighDoc] ≠ some pastHighDoc := by
  exact ⟨by decide, rfl, rfl, rfl, rfl, by decide, by decide⟩

/-- C8 counterexample: with `timezone_offset = 0` the route skips the
conversion entirely, so the returned event carries no `event_time_local`
key at all, contradicting the claim for the offset 0. -/
theorem c8_zero_offset_counterexample :
    get_calendar_events dotSearchParams 0 [eventAB] = [⟨eventAB, none⟩] ∧
    (⟨eventAB, none⟩ : ApiEvent).event_time_local ≠
      some (eventAB.event_time_utc + 0) := by
  exact ⟨by decide, by decide⟩

/-- C9: `create_reminder` fails although the referenced event is stored.
The event inserted by the sync pipeline carries the ObjectId 7, whose
textual form `"7"` is the id the API serves; looking it up with
`find_one({"_id": event_id})` compares the string `"7"` against the
ObjectId and never matches (cf. `delete_reminder`, which wraps the id in
`ObjectId(...)`), so the call raises `ValueError("Event not found")`. -/
theorem c9_create_reminder_bug :
    oidStoredEvent._id.pyStr = "7" ∧
    oidStoredEvent._id ≠ DocId.sid "7" ∧
    create_reminder 0 [oidStoredEvent] "user1" "7" 30 =
      Except.error "Event not found" := by
  exact ⟨rfl, by decide, rfl⟩

/-- C1 (amended): the status updaters `update_event_status` and
`update_event_status_by_time` never change a stored `released` status (both
only match `status = "upcoming"`), but `sync_events_to_db` overwrites the
stored status with the fetched status whenever the two differ, so syncing a
fetched record carrying status `upcoming` against a stored `released` event
sets the stored status back to `upcoming`. -/
theorem c1_status_monotonic_amended :
    (∀ (now : ℚ) (d : StoredEvent), d.status = some "released" →
      (update_event_status_doc now d).status = some "released") ∧
    (∀ (now : ℚ) (nowIso : String) (d : StoredEvent), d.status = some "released" →
      (update_event_status_by_time_doc now nowIso d).status = some "released") ∧
    (∀ (now : ℚ) (n : Nat) (ev : FetchedEvent) (d : StoredEvent),
      d.unique_id = ev.unique_id → d.status = some "released" →
      ev.status = some "upcoming" →
      (sync_events_to_db noFail now ⟨[d], n⟩ [ev]).1.store.map (fun x => x.status) =
        [some "upcoming"]) := by
  refine ⟨?_, ?_, ?_⟩
  · intro now d h
    simp [update_event_status_doc, h]
  · intro now nowIso d h
    simp [update_event_status_by_time_doc, h]
  · intro now n ev d hud hs hev
    simp [sync_events_to_db, syncLoop, noFail, findByUid, List.find?, hud,
      mkUpdateFields, UpdateFields.isEmpty, applySet, updateFirst, hs, hev]

/-- C1 witness: the three parts of the amended claim at concrete inputs. -/
theorem c1_status_monotonic_witness :
    (update_event_status_doc 5 releasedCpiDoc).status = some "released" ∧
    (update_event_status_by_time_doc 5 "2026-01-01T00:00:00" releasedCpiDoc).status =
      some "released" ∧
    (sync_events_to_db noFail 3 ⟨[releasedCpiDoc], 1⟩ [upcomingCpiFetch]).1.store.map
      (fun x => x.status) = [some "upcoming"] :=
  ⟨c1_status_monotonic_amended.1 5 releasedCpiDoc rfl,
   c1_status_monotonic_amended.2.1 5 "2026-01-01T00:00:00" releasedCpiDoc rfl,
   c1_status_monotonic_amended.2.2 3 1 upcomingCpiFetch releasedCpiDoc rfl rfl rfl⟩

/-- C5: the pipeline tries the sources in fixed priority order — the
fallback adapter is consulted exactly when the first adapter returned an
empty list; when the first adapter returned events, its result is what gets
synced; when both return empty, the cycle leaves the store untouched and
syncs nothing. -/
theorem c5_fallback_ordering (f1 f2 : List FetchedEvent) (now : ℚ)
    (nowIso : String) (st : SyncState) :
    ((auto_update_calendar f1 f2 now nowIso st).secondInvoked = f1.isEmpty) ∧
    (f1 ≠ [] →
      (auto_update_calendar f1 f2 now nowIso st).eventsUsed = f1 ∧
      (auto_update_calendar f1 f2 now nowIso st).counts =
        some (sync_events_to_db noFail now st f1).2) ∧
    (f1 = [] → (auto_update_calendar f1 f2 now nowIso st).eventsUsed = f2) ∧
    (f1 = [] → f2 = [] →
      (auto_update_calendar f1 f2 now nowIso st).st = st ∧
      (auto_update_calendar f1 f2 now nowIso st).counts = none) := by
  cases f1 with
  | nil =>
    cases f2 with
    | nil => simp [auto_update_calendar]
    | cons b bs => simp [auto_update_calendar]
  | cons a as => simp [auto_update_calendar]

/-- C5 witness: a non-empty first fetch is the synced list, and a doubly
empty cycle leaves the store untouched. -/
theorem c5_fallback_ordering_witness :
    ((auto_update_calendar [upcomingCpiFetch] [] 0 "t" ⟨[], 0⟩).eventsUsed =
        [upcomingCpiFetch]) ∧
    ((auto_update_calendar [] [] 0 "t" ⟨[], 0⟩).st = ⟨[], 0⟩) :=
  ⟨((c5_fallback_ordering [upcomingCpiFetch] [] 0 "t" ⟨[], 0⟩).2.1 (by decide)).1,
   ((c5_fallback_ordering [] [] 0 "t" ⟨[], 0⟩).2.2.2 rfl rfl).1⟩

/-- C8 (amended): for every non-zero `timezone_offset`, every event returned
by the query entrypoint carries
`event_time_local = event_time_utc + timezone_offset` hours, a pure
fixed-offset shift; at offset 0 the conversion step is skipped and the
events are returned without an `event_time_local` key. -/
theorem c8_timezone_shift_amended (p : FilterParams) (offset : ℚ)
    (store : List StoredEvent) (h : offset ≠ 0) :
    ∀ x ∈ get_calendar_events p offset store,
      x.event_time_local = some (x.ev.event_time_utc + offset) := by
  intro x hx
  unfold get_calendar_events localize_calendar_events at hx
  rw [if_neg (by simp [h])] at hx
  obtain ⟨e, _, rfl⟩ := List.mem_map.mp hx
  rfl

/-- C8 witness: the fixed-offset shift at offset 5 on the one event the
route returns for a concrete store. -/
theorem c8_timezone_shift_witness :
    (⟨eventAB, some (eventAB.event_time_utc + 5)⟩ : ApiEvent).event_time_local =
      some ((⟨eventAB, some (eventAB.event_time_utc + 5)⟩ : ApiEvent).ev.event_time_utc + 5) :=
  c8_timezone_shift_amended dotSearchParams 5 [eventAB] (by norm_num)
    ⟨eventAB, some (eventAB.event_time_utc + 5)⟩ (by
      have h : get_calendar_events dotSearchParams 5 [eventAB] =
          [⟨eventAB, some (eventAB.event_time_utc + 5)⟩] := rfl
      rw [h]
      exact List.mem_singleton_self _)

/-- C7 (amended): the lookup scopes the search to events not earlier than
the current time.  Given two stored high-impact upcoming events at times
T1 < T2 with T1 not in the past, the lookup returns the T1 event (in either
storage order); and whenever no stored event is simultaneously high-impact
and upcoming, it returns none. -/
theorem c7_next_high_impact_amended :
    (∀ (e1 e2 : StoredEvent) (now : ℚ),
      e1.impact_level = "high" → e1.status = some "upcoming" →
      e2.impact_level = "high" → e2.status = some "upcoming" →
      now ≤ e1.event_time_utc → e1.event_time_utc < e2.event_time_utc →
      calculate_next_high_impact now [e1, e2] = some e1 ∧
      calculate_next_high_impact now [e2, e1] = some e1) ∧
    (∀ (store : List StoredEvent) (now : ℚ),
      (∀ d ∈ store, ¬(d.impact_level = "high" ∧ d.status = some "upcoming")) →
      calculate_next_high_impact now store = none) := by
  constructor
  · intro e1 e2 now h1i h1s h2i h2s hn h12
    have hn2 : now ≤ e2.event_time_utc := le_of_lt (lt_of_le_of_lt hn h12)
    have hc1 : (e1.impact_level == "high" && decide (now ≤ e1.event_time_utc) &&
        (e1.status == some "upcoming")) = true := by
      simp [h1i, h1s, hn]
    have hc2 : (e2.impact_level == "high" && decide (now ≤ e2.event_time_utc) &&
        (e2.status == some "upcoming")) = true := by
      simp [h2i, h2s, hn2]
    constructor
    · simp [calculate_next_high_impact, List.filter, hc1, hc2, List.foldl,
        not_lt.mpr (le_of_lt h12)]
    · simp [calculate_next_high_impact, List.filter, hc1, hc2, List.foldl, h12]
  · intro store now h
    have hf : store.filter (fun d => d.impact_level == "high" &&
        decide (now ≤ d.event_time_utc) && (d.status == some "upcoming")) = [] := by
      rw [List.filter_eq_nil_iff]
      intro d hd
      have hnd := h d hd
      simp only [Bool.and_eq_true, beq_iff_eq, decide_eq_true_eq, not_and]
      intro hand
      exact fun hst => hnd ⟨hand.1, hst⟩
    simp [calculate_next_high_impact, hf]

/-- C7 witness: both parts of the amended claim at concrete inputs. -/
theorem c7_next_high_impact_witness :
    calculate_next_high_impact 0 [pastHighDoc, futureHighDoc] = some pastHighDoc ∧
    calculate_next_high_impact 0 [] = none :=
  ⟨(c7_next_high_impact_amended.1 pastHighDoc futureHighDoc 0 rfl rfl rfl rfl
      (by decide) (by decide)).1,
   c7_next_high_impact_amended.2 [] 0 (by simp)⟩

/-- The `$set` write never changes the natural key. -/
theorem applySet_unique_id (u : UpdateFields) (now : ℚ) (fat : Option ℚ)
    (d : StoredEvent) : (applySet u now fat d).unique_id = d.unique_id := rfl

/-- `update_one` rewrites the first match sitting after an unmatched
prefix. -/
theorem updateFirst_append_first (p : StoredEvent → Bool)
    (f : StoredEvent → StoredEvent) (pre : List StoredEvent) (d : StoredEvent)
    (post : List StoredEvent) (hpre : ∀ x ∈ pre, p x = false) (hd : p d = true) :
    updateFirst p f (pre ++ d :: post) = pre ++ f d :: post := by
  induction pre with
  | nil => simp [updateFirst, hd]
  | cons a pre ih =>
    have ha : p a = false := hpre a (by simp)
    simp [updateFirst, ha, ih (fun x hx => hpre x (by simp [hx]))]

/-- C4: when a fetched record matches a stored event by `unique_id` and
differs from it only in `actual`, the sync write produces exactly the
stored document with `actual`, `updated_at` and `fetched_at` replaced —
`unique_id`, `created_at`, `event_date`, `event_time_utc`, `country`,
`currency`, `impact_level`, `event_name`, `forecast`, `previous` and
`status` are untouched, every other document is untouched, and the pass
counts one update. -/
theorem c4_field_scoped_update (now : ℚ) (n : Nat) (ev : FetchedEvent)
    (pre post : List StoredEvent) (d : StoredEvent)
    (hpre : ∀ x ∈ pre, x.unique_id ≠ ev.unique_id)
    (hd : d.unique_id = ev.unique_id)
    (ha : ev.actual ≠ d.actual) (hf : ev.forecast = d.forecast)
    (hp : ev.previous = d.previous) (hs : ev.status = d.status) :
    sync_events_to_db noFail now ⟨pre ++ d :: post, n⟩ [ev] =
      (⟨pre ++ { d with
          actual := ev.actual
          updated_at := now
          fetched_at := ev.fetched_at } :: post, n⟩,
       ⟨0, 1, 0, 1⟩) := by
  have hfind : findByUid (pre ++ d :: post) ev.unique_id = some d := by
    unfold findByUid
    rw [List.find?_append, List.find?_eq_none.mpr (fun x hx => by simp [hpre x hx])]
    simp [List.find?, hd]
  have hu : mkUpdateFields ev d = ⟨some ev.actual, none, none, none⟩ := by
    simp [mkUpdateFields, ha, hf, hp, hs]
  have hrewrite : updateFirst (fun x => x.unique_id == ev.unique_id)
      (applySet ⟨some ev.actual, none, none, none⟩ now ev.fetched_at)
      (pre ++ d :: post) =
      pre ++ { d with
        actual := ev.actual
        updated_at := now
        fetched_at := ev.fetched_at } :: post := by
    rw [updateFirst_append_first _ _ pre d post
      (fun x hx => by simp [hpre x hx]) (by simp [hd])]
    rfl
  simp [sync_events_to_db, syncLoop, noFail, hfind, hu, UpdateFields.isEmpty,
    hrewrite]

/-- C4 witness: a fetched record whose only diff-field change is a fresh
`actual` value updates exactly `{actual, updated_at, fetched_at}` of the
one stored document. -/
theorem c4_field_scoped_update_witness :
    sync_events_to_db noFail 3 ⟨[releasedCpiDoc], 1⟩
        [{ upcomingCpiFetch with actual := some "0.4%", status := some "released" }] =
      (⟨[{ releasedCpiDoc with
            actual := some "0.4%"
            updated_at := 3
            fetched_at := some 2 }], 1⟩,
       ⟨0, 1, 0, 1⟩) :=
  c4_field_scoped_update 3 1 _ [] [] releasedCpiDoc (by simp) rfl (by decide)
    rfl rfl rfl

/-- Number of records of a batch of length `n` on which the per-record
`except` branch fires. -/
def failedCount (fail : Nat → Bool) (n : Nat) : Nat :=
  (List.range n).countP (fun j => fail j)

/-- Counting invariant of the sync loop: every processed record increments
exactly one of the three counters, and every failed record increments
none. -/
theorem syncLoop_counts (fail : Nat → Bool) (now : ℚ) :
    ∀ (l : List FetchedEvent) (i : Nat) (acc : SyncAcc),
      (syncLoop fail now l i acc).created + (syncLoop fail now l i acc).updated +
        (syncLoop fail now l i acc).skipped +
        (List.range' i l.length).countP (fun j => fail j) =
      acc.created + acc.updated + acc.skipped + l.length := by
  intro l
  induction l with
  | nil => intro i acc; simp [syncLoop]
  | cons ev rest ih =>
    intro i acc
    rw [List.length_cons, List.range'_succ, List.countP_cons, syncLoop]
    by_cases hfail : fail i = true
    · simp only [hfail, if_true]
      have h2 := ih (i + 1) acc
      omega
    · simp only [hfail, Bool.false_eq_true, if_false]
      cases hfind : findByUid acc.st.store ev.unique_id with
      | none =>
        simp only [hfind, Bool.false_eq_true, if_false]
        have h2 := ih (i + 1)
          { acc with
            st := { store := acc.st.store ++ [insertDoc acc.st.nextId now ev]
                    nextId := acc.st.nextId + 1 }
            created := acc.created + 1 }
        dsimp only at h2
        omega
      | some ex =>
        simp only [hfind, Bool.false_eq_true, if_false]
        by_cases hemp : (mkUpdateFields ev ex).isEmpty = true
        · simp only [hemp, if_true]
          have h2 := ih (i + 1) { acc with skipped := acc.skipped + 1 }
          dsimp only at h2
          omega
        · simp only [hemp, Bool.false_eq_true, if_false]
          have h2 := ih (i + 1)
            { acc with
              st := { acc.st with
                store := updateFirst (fun d => d.unique_id == ev.unique_id)
                  (applySet (mkUpdateFields ev ex) now ev.fetched_at) acc.st.store }
              updated := acc.updated + 1 }
          dsimp only at h2
          omega

/-- C10: sync count accounting.  The returned `total` is the input length;
`created + updated + skipped` plus the number of failed records always
equals the input length, so when no per-record failure occurs each input
record increments exactly one of the three counters and the counts sum to
the total, while any per-record failure leaves the sum strictly below the
total without aborting the batch. -/
theorem c10_sync_count_accounting (fail : Nat → Bool) (now : ℚ) (st : SyncState)
    (events : List FetchedEvent) :
    (sync_events_to_db fail now st events).2.total = events.length ∧
    (sync_events_to_db fail now st events).2.created +
      (sync_events_to_db fail now st events).2.updated +
      (sync_events_to_db fail now st events).2.skipped +
      failedCount fail events.length = events.length ∧
    ((∀ i, i < events.length → fail i = false) →
      (sync_events_to_db fail now st events).2.created +
        (sync_events_to_db fail now st events).2.updated +
        (sync_events_to_db fail now st events).2.skipped = events.length) ∧
    ((∃ i, i < events.length ∧ fail i = true) →
      (sync_events_to_db fail now st events).2.created +
        (sync_events_to_db fail now st events).2.updated +
        (sync_events_to_db fail now st events).2.skipped < events.length) := by
  have hmain := syncLoop_counts fail now events 0 ⟨st, 0, 0, 0⟩
  rw [← List.range_eq_range'] at hmain
  dsimp only at hmain
  have heq : (sync_events_to_db fail now st events).2.created +
      (sync_events_to_db fail now st events).2.updated +
      (sync_events_to_db fail now st events).2.skipped +
      failedCount fail events.length = events.length := by
    simpa [sync_events_to_db, failedCount] using hmain
  refine ⟨rfl, heq, ?_, ?_⟩
  · intro hnone
    have hzero : failedCount fail events.length = 0 := by
      unfold failedCount
      rw [List.countP_eq_zero]
      intro a ha
      simp [hnone a (List.mem_range.mp ha)]
    omega
  · intro hex
    obtain ⟨i, hi, hfi⟩ := hex
    have hpos : 0 < failedCount fail events.length := by
      unfold failedCount
      rw [List.countP_pos_iff]
      exact ⟨i, List.mem_range.mpr hi, hfi⟩
    omega

/-- C10 witness: a batch of two records where the second hits the `except`
branch — the counters account for one record and stay below the total. -/
theorem c10_sync_count_accounting_witness :
    (sync_events_to_db (fun i => i == 1) 0 ⟨[], 0⟩ [dupFetchA, dupFetchB]).2.created +
      (sync_events_to_db (fun i => i == 1) 0 ⟨[], 0⟩ [dupFetchA, dupFetchB]).2.updated +
      (sync_events_to_db (fun i => i == 1) 0 ⟨[], 0⟩ [dupFetchA, dupFetchB]).2.skipped +
      failedCount (fun i => i == 1) 2 = 2 ∧
    (sync_events_to_db (fun i => i == 1) 0 ⟨[], 0⟩ [dupFetchA, dupFetchB]).2.created +
      (sync_events_to_db (fun i => i == 1) 0 ⟨[], 0⟩ [dupFetchA, dupFetchB]).2.updated +
      (sync_events_to_db (fun i => i == 1) 0 ⟨[], 0⟩ [dupFetchA, dupFetchB]).2.skipped < 2 :=
  ⟨(c10_sync_count_accounting (fun i => i == 1) 0 ⟨[], 0⟩ [dupFetchA, dupFetchB]).2.1,
   (c10_sync_count_accounting (fun i => i == 1) 0 ⟨[], 0⟩ [dupFetchA, dupFetchB]).2.2.2
     ⟨1, by norm_num, rfl⟩⟩

/-- Rewriting the first document of one natural key leaves lookups of every
other key unchanged, provided the rewrite preserves the key. -/
theorem findByUid_updateFirst_other (a uid : String) (f : StoredEvent → StoredEvent)
    (hf : ∀ d, (f d).unique_id = d.unique_id) (hne : a ≠ uid) :
    ∀ s : List StoredEvent,
      findByUid (updateFirst (fun d => d.unique_id == a) f s) uid = findByUid s uid := by
  intro s
  induction s with
  | nil => rfl
  | cons d ds ih =>
    unfold updateFirst
    by_cases hda : (d.unique_id == a) = true
    · rw [if_pos hda]
      have hdeq : d.unique_id = a := by simpa using hda
      have hd1 : (d.unique_id == uid) = false := by simp [hdeq, hne]
      have hd2 : ((f d).unique_id == uid) = false := by rw [hf d]; exact hd1
      simp [findByUid, List.find?, hd1, hd2]
    · rw [if_neg hda]
      by_cases hdu : (d.unique_id == uid) = true
      · simp [findByUid, List.find?, hdu]
      · simpa [findByUid, List.find?, hdu] using ih

/-- Rewriting the first document of a key turns the lookup of that key into
the rewritten document, provided the rewrite preserves the key. -/
theorem findByUid_updateFirst_self (uid : String) (f : StoredEvent → StoredEvent)
    (hf : ∀ d, (f d).unique_id = d.unique_id) :
    ∀ (s : List StoredEvent) (ex : StoredEvent), findByUid s uid = some ex →
      findByUid (updateFirst (fun d => d.unique_id == uid) f s) uid = some (f ex) := by
  intro s
  induction s with
  | nil => intro ex h; exact absurd h (by simp [findByUid])
  | cons d ds ih =>
    intro ex h
    unfold updateFirst
    by_cases hd : (d.unique_id == uid) = true
    · rw [if_pos hd]
      have hex : d = ex := by
        have h2 := h
        unfold findByUid at h2
        simp [List.find?, hd] at h2
        exact h2
      subst hex
      have hfd : ((f d).unique_id == uid) = true := by rw [hf d]; exact hd
      simp [findByUid, List.find?, hfd]
    · rw [if_neg hd]
      have h2 : findByUid ds uid = some ex := by
        have h3 := h
        unfold findByUid at h3
        simpa [List.find?, hd] using h3
      simpa [findByUid, List.find?, hd] using ih ex h2

/-- After the `$set` produced by the diff of a fetched record, the stored
document agrees with that record on every diff field. -/
theorem mkUpdateFields_applySet_isEmpty (ev : FetchedEvent) (ex : StoredEvent)
    (now : ℚ) (fat : Option ℚ) :
    (mkUpdateFields ev (applySet (mkUpdateFields ev ex) now fat ex)).isEmpty = true := by
  have hac : (applySet (mkUpdateFields ev ex) now fat ex).actual = ev.actual := by
    by_cases h : ev.actual = ex.actual <;> simp [applySet, mkUpdateFields, h]
  have hfc : (applySet (mkUpdateFields ev ex) now fat ex).forecast = ev.forecast := by
    by_cases h : ev.forecast = ex.forecast <;> simp [applySet, mkUpdateFields, h]
  have hpc : (applySet (mkUpdateFields ev ex) now fat ex).previous = ev.previous := by
    by_cases h : ev.previous = ex.previous <;> simp [applySet, mkUpdateFields, h]
  have hsc : (applySet (mkUpdateFields ev ex) now fat ex).status = ev.status := by
    by_cases h : ev.status = ex.status <;> simp [applySet, mkUpdateFields, h]
  set d2 := applySet (mkUpdateFields ev ex) now fat ex with hd2
  simp [mkUpdateFields, UpdateFields.isEmpty, hac, hfc, hpc, hsc]

/-- A freshly inserted document agrees with the fetched record it came from
on every diff field. -/
theorem mkUpdateFields_insertDoc_isEmpty (ev : FetchedEvent) (n : Nat) (now : ℚ) :
    (mkUpdateFields ev (insertDoc n now ev)).isEmpty = true := by
  simp [mkUpdateFields, insertDoc, UpdateFields.isEmpty]

/-- Processing records of other natural keys never disturbs the lookup of a
given key. -/
theorem syncLoop_findByUid_preserved (now : ℚ) :
    ∀ (l : List FetchedEvent) (i : Nat) (acc : SyncAcc) (uid : String),
      (∀ ev ∈ l, ev.unique_id ≠ uid) →
      findByUid (syncLoop noFail now l i acc).st.store uid =
        findByUid acc.st.store uid := by
  intro l
  induction l with
  | nil => intro i acc uid _; rfl
  | cons ev rest ih =>
    intro i acc uid h
    have hev : ev.unique_id ≠ uid := h ev (by simp)
    have hrest : ∀ e ∈ rest, e.unique_id ≠ uid := fun e he => h e (by simp [he])
    rw [syncLoop]
    simp only [noFail, Bool.false_eq_true, if_false]
    cases hfind : findByUid acc.st.store ev.unique_id with
    | none =>
      simp only [hfind]
      rw [ih (i + 1) _ uid hrest]
      dsimp only
      unfold findByUid
      rw [List.find?_append]
      have hx : List.find? (fun d => d.unique_id == uid)
          [insertDoc acc.st.nextId now ev] = none := by
        have hb : (ev.unique_id == uid) = false := by simp [hev]
        simp [List.find?, insertDoc, hb]
      rw [hx, Option.or_none]
    | some ex =>
      simp only [hfind]
      by_cases hemp : (mkUpdateFields ev ex).isEmpty = true
      · simp only [hemp, if_true]
        exact ih (i + 1) _ uid hrest
      · simp only [hemp, Bool.false_eq_true, if_false]
        rw [ih (i + 1) _ uid hrest]
        dsimp only
        exact findByUid_updateFirst_other ev.unique_id uid _
          (fun d => applySet_unique_id _ now ev.fetched_at d) hev acc.st.store

/-- After one pass over a batch with pairwise-distinct natural keys, every
record of the batch finds a stored document that agrees with it on all four
diff fields. -/
theorem syncLoop_establishes (now : ℚ) :
    ∀ (l : List FetchedEvent) (i : Nat) (acc : SyncAcc),
      (l.map (fun e => e.unique_id)).Nodup →
      ∀ ev ∈ l, ∃ d,
        findByUid (syncLoop noFail now l i acc).st.store ev.unique_id = some d ∧
        (mkUpdateFields ev d).isEmpty = true := by
  intro l
  induction l with
  | nil => intro i acc _ ev hev; cases hev
  | cons ev0 rest ih =>
    intro i acc hnd ev hev
    have hnd2 : (rest.map (fun e => e.unique_id)).Nodup :=
      (List.nodup_cons.mp hnd).2
    have hni : ∀ e ∈ rest, e.unique_id ≠ ev0.unique_id := by
      intro e he hEq
      have hmem : e.unique_id ∈ rest.map (fun x => x.unique_id) :=
        List.mem_map_of_mem _ he
      rw [hEq] at hmem
      exact (List.nodup_cons.mp hnd).1 hmem
    rw [syncLoop]
    simp only [noFail, Bool.false_eq_true, if_false]
    rcases List.mem_cons.mp hev with rfl | hev2
    · cases hfind : findByUid acc.st.store ev.unique_id with
      | none =>
        simp only [hfind]
        refine ⟨insertDoc acc.st.nextId now ev, ?_,
          mkUpdateFields_insertDoc_isEmpty ev _ now⟩
        rw [syncLoop_findByUid_preserved now rest (i + 1) _ ev.unique_id hni]
        dsimp only
        unfold findByUid
        rw [List.find?_append]
        have h0 : List.find? (fun d => d.unique_id == ev.unique_id) acc.st.store =
            none := hfind
        rw [h0]
        simp [List.find?, insertDoc]
      | some ex =>
        simp only [hfind]
        by_cases hemp : (mkUpdateFields ev ex).isEmpty = true
        · simp only [hemp, if_true]
          refine ⟨ex, ?_, hemp⟩
          rw [syncLoop_findByUid_preserved now rest (i + 1) _ ev.unique_id hni]
          exact hfind
        · simp only [hemp, Bool.false_eq_true, if_false]
          refine ⟨applySet (mkUpdateFields ev ex) now ev.fetched_at ex, ?_,
            mkUpdateFields_applySet_isEmpty ev ex now ev.fetched_at⟩
          rw [syncLoop_findByUid_preserved now rest (i + 1) _ ev.unique_id hni]
          dsimp only
          exact findByUid_updateFirst_self ev.unique_id _
            (fun d => applySet_unique_id _ now ev.fetched_at d) acc.st.store ex hfind
    · cases hfind : findByUid acc.st.store ev0.unique_id with
      | none =>
        simp only [hfind]
        exact ih (i + 1) _ hnd2 ev hev2
      | some ex =>
        simp only [hfind]
        by_cases hemp : (mkUpdateFields ev0 ex).isEmpty = true
        · simp only [hemp, if_true]
          exact ih (i + 1) _ hnd2 ev hev2
        · simp only [hemp, Bool.false_eq_true, if_false]
          exact ih (i + 1) _ hnd2 ev hev2

/-- A pass over a batch whose every record already agrees with its stored
document only increments the skip counter: no write, no other count. -/
theorem syncLoop_all_skip (now : ℚ) :
    ∀ (l : List FetchedEvent) (i : Nat) (acc : SyncAcc),
      (∀ ev ∈ l, ∃ d, findByUid acc.st.store ev.unique_id = some d ∧
        (mkUpdateFields ev d).isEmpty = true) →
      syncLoop noFail now l i acc = { acc with skipped := acc.skipped + l.length } := by
  intro l
  induction l with
  | nil => intro i acc _; simp [syncLoop]
  | cons ev rest ih =>
    intro i acc h
    obtain ⟨d, hfind, hemp⟩ := h ev (by simp)
    rw [syncLoop]
    simp only [noFail, Bool.false_eq_true, if_false, hfind, hemp, if_true]
    rw [ih (i + 1) { acc with skipped := acc.skipped + 1 } (fun e he => h e (by simp [he]))]
    dsimp only
    rw [List.length_cons,
      show acc.skipped + 1 + rest.length = acc.skipped + (rest.length + 1) from by omega]

/-- C2 (amended): for every store state and every fetched list whose records
carry pairwise-distinct `unique_id`s — as a single fetch result does —
running the sync engine twice in a row with the identical list yields zero
writes on the second pass: the second run returns `created = 0`,
`updated = 0`, every record skipped, and leaves the store (and the ObjectId
supply) unchanged.  Distinctness is needed: two records sharing a
`unique_id` with different payloads keep overwriting each other
(`c2_duplicate_uid_counterexample`). -/
theorem c2_sync_idempotent (now1 now2 : ℚ) (st : SyncState)
    (events : List FetchedEvent)
    (h : (events.map (fun e => e.unique_id)).Nodup) :
    (sync_events_to_db noFail now2 (sync_events_to_db noFail now1 st events).1
        events).1 = (sync_events_to_db noFail now1 st events).1 ∧
    (sync_events_to_db noFail now2 (sync_events_to_db noFail now1 st events).1
        events).2 = ⟨0, 0, events.length, events.length⟩ := by
  have hinv := syncLoop_establishes now1 events 0 ⟨st, 0, 0, 0⟩ h
  have hloop2 := syncLoop_all_skip now2 events 0
    ⟨(syncLoop noFail now1 events 0 ⟨st, 0, 0, 0⟩).st, 0, 0, 0⟩
    (by
      intro ev hev
      obtain ⟨d, hf, he⟩ := hinv ev hev
      exact ⟨d, hf, he⟩)
  constructor
  · show (syncLoop noFail now2 events 0
        ⟨(syncLoop noFail now1 events 0 ⟨st, 0, 0, 0⟩).st, 0, 0, 0⟩).st =
      (syncLoop noFail now1 events 0 ⟨st, 0, 0, 0⟩).st
    rw [hloop2]
  · show (⟨(syncLoop noFail now2 events 0
          ⟨(syncLoop noFail now1 events 0 ⟨st, 0, 0, 0⟩).st, 0, 0, 0⟩).created,
        (syncLoop noFail now2 events 0
          ⟨(syncLoop noFail now1 events 0 ⟨st, 0, 0, 0⟩).st, 0, 0, 0⟩).updated,
        (syncLoop noFail now2 events 0
          ⟨(syncLoop noFail now1 events 0 ⟨st, 0, 0, 0⟩).st, 0, 0, 0⟩).skipped,
        events.length⟩ : SyncCounts) = ⟨0, 0, events.length, events.length⟩
    rw [hloop2]
    simp

/-- C2 witness: syncing a one-record fetch twice — the second pass skips the
record and changes nothing. -/
theorem c2_sync_idempotent_witness :
    (sync_events_to_db noFail 1 (sync_events_to_db noFail 0 ⟨[], 0⟩
        [upcomingCpiFetch]).1 [upcomingCpiFetch]).1 =
      (sync_events_to_db noFail 0 ⟨[], 0⟩ [upcomingCpiFetch]).1 ∧
    (sync_events_to_db noFail 1 (sync_events_to_db noFail 0 ⟨[], 0⟩
        [upcomingCpiFetch]).1 [upcomingCpiFetch]).2 = ⟨0, 0, 1, 1⟩ :=
  ⟨(c2_sync_idempotent 0 1 ⟨[], 0⟩ [upcomingCpiFetch] (by simp)).1,
   (c2_sync_idempotent 0 1 ⟨[], 0⟩ [upcomingCpiFetch] (by simp)).2⟩

/-- On a dot-free pattern the token matcher coincides with the
case-insensitive prefix test. -/
theorem rMatchHere_litOnly (pat : List Char) (hp : ∀ c ∈ pat, c ≠ '.') :
    ∀ cs : List Char,
      rMatchHere (pat.map (fun c => if c = '.' then RTok.dot else RTok.lit c)) cs =
        isPrefixCI pat cs := by
  induction pat with
  | nil => intro cs; rfl
  | cons a as ih =>
    intro cs
    have ha : a ≠ '.' := hp a (by simp)
    have has : ∀ c ∈ as, c ≠ '.' := fun c hc => hp c (by simp [hc])
    cases cs with
    | nil => simp [rMatchHere, isPrefixCI, ha]
    | cons c cs => simp [rMatchHere, isPrefixCI, rtokMatches, ha, ih has cs]

/-- On a dot-free pattern the unanchored search coincides with
case-insensitive substring containment. -/
theorem rSearch_litOnly (pat : List Char) (hp : ∀ c ∈ pat, c ≠ '.') :
    ∀ cs : List Char,
      rSearch (pat.map (fun c => if c = '.' then RTok.dot else RTok.lit c)) cs =
        containsCIAux pat cs := by
  intro cs
  induction cs with
  | nil => simp [rSearch, containsCIAux, rMatchHere_litOnly pat hp]
  | cons c cs ih => simp [rSearch, containsCIAux, rMatchHere_litOnly pat hp, ih]

/-- A regex search whose pattern carries no metacharacter is exactly a
case-insensitive substring test. -/
theorem regexSearchI_metaFree (pat text : String) (hp : metaFree pat = true) :
    regexSearchI pat text = containsCI pat text := by
  have hdot : ∀ c ∈ pat.data, c ≠ '.' := by
    intro c hc hEq
    have hall := (List.all_eq_true.mp hp) c hc
    subst hEq
    simp [pcreMetaChars] at hall
  exact rSearch_litOnly pat.data hdot text.data

/-- C6 (amended): for every combination of optional filters the query
returns exactly the stored events satisfying their conjunction, where the
free-text clause is a case-insensitive regex match; for search strings free
of regex metacharacters — such as "CPI" — this is case-insensitive
substring containment, while a metacharacter search string can match names
not containing it (`c6_regex_dot_counterexample`). -/
theorem c6_filter_correctness_amended (p : FilterParams) (store : List StoredEvent)
    (hmeta : metaFree (p.search_query.getD "") = true) :
    get_events_with_filters p store =
      sortByTime (store.filter (spec_filter_matches p)) ∧
    ∀ d, d ∈ get_events_with_filters p store ↔
      d ∈ store ∧ spec_filter_matches p d = true := by
  have hpt : ∀ d, matchEvent p d = spec_filter_matches p d := by
    intro d
    unfold matchEvent spec_filter_matches
    rw [regexSearchI_metaFree _ _ hmeta]
  have hfe : store.filter (matchEvent p) = store.filter (spec_filter_matches p) :=
    List.filter_congr (fun x _ => hpt x)
  constructor
  · unfold get_events_with_filters
    rw [hfe]
  · intro d
    unfold get_events_with_filters sortByTime
    rw [hfe]
    constructor
    · intro hd
      exact List.mem_filter.mp ((List.perm_insertionSort _ _).mem_iff.mp hd)
    · intro hd
      exact (List.perm_insertionSort _ _).mem_iff.mpr
        (List.mem_filter.mpr ⟨hd.1, hd.2⟩)

/-- A low-impact EUR event named Core CPI, for exercising the filters. -/
def eurLowCpiDoc : StoredEvent :=
  { releasedCpiDoc with
    currency := "EUR"
    impact_level := "low"
    event_name := "Core CPI"
    unique_id := "e2" }

/-- The spec example filter: USD currencies, high impacts, search CPI. -/
def cpiSearchParams : FilterParams :=
  { start_date := none, end_date := none, currencies := some ["USD"],
    impacts := some ["high"], high_impact_only := false,
    search_query := some "CPI", status := none }

/-- C6 witness: the amended equation at the spec's example filter over a
store spanning two currencies and impacts. -/
theorem c6_filter_correctness_witness :
    metaFree "CPI" = true ∧
    get_events_with_filters cpiSearchParams [releasedCpiDoc, eurLowCpiDoc] =
      sortByTime ([releasedCpiDoc, eurLowCpiDoc].filter
        (spec_filter_matches cpiSearchParams)) :=
  ⟨by decide,
   (c6_filter_correctness_amended cpiSearchParams [releasedCpiDoc, eurLowCpiDoc]
     (by decide)).1⟩
